import Mathlib

set_option maxRecDepth 20000
set_option maxHeartbeats 1000000

/-! Shallow embedding of the Speech_Summary pipeline
    (transcription.py, summarization.py, title_generation.py).

    Strings are modelled as Lean `String`/`List Char`; the remote OpenAI
    services, the local Whisper model and the transformers pipeline are
    external collaborators and enter the embedding as explicit parameters
    (their responses / raised exceptions are inputs).  Python exceptions in
    embedded code are modelled with `Option`/`Except`.  Regex operations are
    embedded as executable character scanners that implement exactly the
    behaviour of the concrete patterns used by the source. -/

/-- ASCII whitespace as matched by Python's regex class and str.split/strip. -/
def isPySpace (c : Char) : Bool :=
  c = ' ' || c = '\t' || c = '\n' || c = '\r' || c = '\x0b' || c = '\x0c'

/-- Python str.strip: drop whitespace from both ends of a character list. -/
def pyStripL (l : List Char) : List Char :=
  ((l.dropWhile isPySpace).reverse.dropWhile isPySpace).reverse

/-- Decides whether `pat` is a leading segment of `l` (character-wise). -/
def listIsPre : List Char → List Char → Bool
  | [], _ => true
  | _ :: _, [] => false
  | p :: ps, c :: cs => p == c && listIsPre ps cs

/-- Decides whether `pat` occurs contiguously somewhere inside `l`. -/
def isSubList (pat : List Char) : List Char → Bool
  | [] => pat.isEmpty
  | c :: cs => listIsPre pat (c :: cs) || isSubList pat cs

/-- Python's `pat in s` substring test. -/
def containsSub (s pat : String) : Bool := isSubList pat.data s.data

/-! ## transcription.py -/

/-- A segment of the remote verbose_json transcription response:
    `segment.get('speaker', 'Unknown')` and `segment['text']`. -/
structure OSeg where
  speaker : Option String
  text : String

/-- The speaker label `f"Speaker {segment.get('speaker', 'Unknown')}"`. -/
def speakerLabel (s : OSeg) : String := "Speaker " ++ s.speaker.getD "Unknown"

/-- The segment loop of transcribe_with_openai: emit a new speaker header
    only when the speaker differs from `current_speaker`, else append the
    text to the running turn. -/
def openaiLoop : List OSeg → String → Option String → String
  | [], formatted, _ => formatted
  | seg :: rest, formatted, current =>
    let spk := speakerLabel seg
    if some spk = current then
      openaiLoop rest (formatted ++ " " ++ seg.text) current
    else
      openaiLoop rest (formatted ++ "\n" ++ spk ++ ": " ++ seg.text) (some spk)

/-- Shape of the remote transcription response: a dict with "segments",
    an object/dict with "text", or anything else. -/
inductive OpenAIResp where
  | withSegments (segments : List OSeg)
  | withText (text : String)
  | unknown

/-- transcribe_with_openai, as a function of the (already received) remote
    response; the network call itself is handled by the caller as `Except`. -/
def transcribe_with_openai : OpenAIResp → String
  | .withSegments segs => String.mk (pyStripL (openaiLoop segs "" none).data)
  | .withText t => "Speaker: " ++ t
  | .unknown => "Unable to transcribe audio with OpenAI API"

/-- A segment of the local Whisper result: `segment.get("text", "")`. -/
structure WSeg where
  text : Option String

/-- The chunk-accumulating loop of transcribe_with_whisper (flush a
    "Speaker:" block whenever the running chunk exceeds 200 characters),
    including the final flush of a non-empty remainder. -/
def whisperLoop : List WSeg → String → String → String
  | [], formatted, chunk =>
    if chunk ≠ "" then formatted ++ "\nSpeaker: " ++ chunk ++ "\n" else formatted
  | seg :: rest, formatted, chunk =>
    let chunk2 := chunk ++ seg.text.getD ""
    if chunk2.length > 200 then
      whisperLoop rest (formatted ++ "\nSpeaker: " ++ chunk2 ++ "\n") ""
    else
      whisperLoop rest formatted chunk2

/-- transcribe_with_whisper: the whole body is inside try/except, so the
    argument is the outcome of loading+running the local model
    (`result.get("segments", [])` on success, the exception text on failure). -/
def transcribe_with_whisper : Except String (List WSeg) → String
  | .error e => "Transcription failed: " ++ e
  | .ok segs => String.mk (pyStripL (whisperLoop segs "" "").data)

/-- transcribe_audio: prefer the remote path when a key is configured, fall
    back to the local Whisper path on a remote exception. -/
def transcribe_audio (hasKey : Bool) (remote : Except String OpenAIResp)
    (whisperRun : Except String (List WSeg)) : String :=
  if hasKey then
    match remote with
    | .ok resp => transcribe_with_openai resp
    | .error _ => transcribe_with_whisper whisperRun
  else transcribe_with_whisper whisperRun

/-- Concatenation of all whisper segment texts, in order. -/
def concatSegTexts : List WSeg → String
  | [] => ""
  | s :: rest => s.text.getD "" ++ concatSegTexts rest

/-- Counts, along the remote segment list, how many segments start a new
    speaker turn (their label differs from the running `current_speaker`). -/
def segChanges : Option String → List OSeg → Nat
  | _, [] => 0
  | cur, seg :: rest =>
    if some (speakerLabel seg) = cur then segChanges cur rest
    else 1 + segChanges (some (speakerLabel seg)) rest

/-! ## summarization.py -/

/-- State machine for `re.sub(r'\s+', ' ', s)`: replace every maximal run of
    whitespace by a single space (`inRun` records being inside a run). -/
def collapseWsAux : Bool → List Char → List Char
  | _, [] => []
  | inRun, c :: rest =>
    if isPySpace c then
      if inRun then collapseWsAux true rest else ' ' :: collapseWsAux true rest
    else c :: collapseWsAux false rest

/-- Collapse whitespace runs to single spaces, as the first step of
    clean_transcript. -/
def collapseWs (l : List Char) : List Char := collapseWsAux false l

/-- Fuel-indexed scanner for `re.sub(r'\[.*?\]', '', s)`: at each '[', a
    non-greedy match runs to the first ']' (never across a newline, since
    '.' does not match '\n'); matched spans are deleted, everything else is
    kept.  `fuel ≥ length of the input` makes it total. -/
def removeBracketsF : Nat → List Char → List Char
  | 0, _ => []
  | _ + 1, [] => []
  | fuel + 1, c :: rest =>
    if c = '[' then
      match rest.dropWhile (fun x => !(x == ']' || x == '\n')) with
      | ']' :: rest2 => removeBracketsF fuel rest2
      | _ => '[' :: removeBracketsF fuel rest
    else c :: removeBracketsF fuel rest

/-- Bracketed-annotation removal (second step of clean_transcript). -/
def removeBrackets (l : List Char) : List Char := removeBracketsF l.length l

/-- clean_transcript: collapse whitespace, strip `[...]` annotations, strip
    the ends. -/
def clean_transcript (transcript : String) : String :=
  String.mk (pyStripL (removeBrackets (collapseWs transcript.data)))

/-- A sentence-terminating character of the pattern `(?<=[.!?])\s+`. -/
def isSentEnd (c : Char) : Bool := c = '.' || c = '!' || c = '?'

/-- State machine for `re.split(r'(?<=[.!?])\s+', s)`: a whitespace run
    right after '.', '!' or '?' separates sentences.  `cur` is the current
    sentence reversed, `prevEnd` says whether the previous character was a
    terminator, `inSep` says we are inside a separator run. -/
def sentAux : List Char → List Char → Bool → Bool → List (List Char)
  | [], cur, _, _ => [cur.reverse]
  | c :: rest, cur, prevEnd, inSep =>
    if inSep && isPySpace c then sentAux rest cur false true
    else if isPySpace c && prevEnd then cur.reverse :: sentAux rest [] false true
    else sentAux rest (c :: cur) (isSentEnd c) false

/-- Sentence splitting as used by simple_extractive_summary and
    summarize_with_transformers. -/
def sentSplit (l : List Char) : List (List Char) := sentAux l [] false false

/-- Fuel-indexed scanner for `re.findall(r'(Speaker [^:]+):', s)`: at each
    position that starts with "Speaker ", take the maximal colon-free run;
    if it is non-empty and followed by ':', capture "Speaker " plus the run
    and resume after the colon, otherwise advance one character. -/
def findSpeakersF : Nat → List Char → List String
  | 0, _ => []
  | _ + 1, [] => []
  | fuel + 1, 'S' :: 'p' :: 'e' :: 'a' :: 'k' :: 'e' :: 'r' :: ' ' :: after =>
    match after.dropWhile (fun c => !(c == ':')) with
    | ':' :: rest2 =>
      if (after.takeWhile (fun c => !(c == ':'))).isEmpty then
        findSpeakersF fuel ('p' :: 'e' :: 'a' :: 'k' :: 'e' :: 'r' :: ' ' :: after)
      else
        String.mk ('S' :: 'p' :: 'e' :: 'a' :: 'k' :: 'e' :: 'r' :: ' ' ::
            after.takeWhile (fun c => !(c == ':'))) ::
          findSpeakersF fuel rest2
    | _ => findSpeakersF fuel ('p' :: 'e' :: 'a' :: 'k' :: 'e' :: 'r' :: ' ' :: after)
  | fuel + 1, _ :: rest => findSpeakersF fuel rest

/-- All captures of the speaker-label pattern `(Speaker [^:]+):`. -/
def findSpeakers (l : List Char) : List String := findSpeakersF l.length l

/-- simple_extractive_summary: narrative from first 3, middle 2 and last 3
    sentences, then a Key Points section of three scanned statistics. -/
def simple_extractive_summary (transcript : String) : String :=
  let sentences := (sentSplit transcript.data).map String.mk
  let speaker_turns := findSpeakers transcript.data
  let uniqueSpeakers := speaker_turns.dedup.length
  let midPoint := sentences.length / 2
  let selected := sentences.take 3 ++ ((sentences.drop midPoint).take 2 ++
    sentences.drop (sentences.length - 3))
  "## Meeting Summary\n\n" ++ String.intercalate " " selected ++ "\n\n" ++
    "## Key Points\n\n" ++
    ("- Meeting included " ++ toString uniqueSpeakers ++ " participants\n") ++
    ("- The transcript contains " ++ toString sentences.length ++ " sentences\n") ++
    ("- Total of " ++ toString speaker_turns.length ++ " speaker changes occurred\n")

/-- Fuel-indexed version of the slicing comprehension
    `[transcript[i:i+10000] for i in range(0, len(transcript), 10000)]`. -/
def chunksF : Nat → List Char → List (List Char)
  | 0, _ => []
  | _ + 1, [] => []
  | fuel + 1, c :: rest => (c :: rest).take 10000 :: chunksF fuel ((c :: rest).drop 10000)

/-- The contiguous 10000-character chunks used by summarize_with_openai. -/
def openai_chunks (transcript : String) : List String :=
  (chunksF transcript.data.length transcript.data).map String.mk

/-- Per-chunk remote calls of summarize_with_openai; the first raised
    exception propagates. -/
def chunkSummaries (chat : String → Except String String) : List String → Except String (List String)
  | [] => .ok []
  | c :: rest =>
    match chat ("Summarize this part of the transcript: " ++ c),
        chunkSummaries chat rest with
    | .ok s, .ok ss => .ok (s :: ss)
    | .error e, _ => .error e
    | _, .error e => .error e

/-- summarize_with_openai: chunked map-then-combine above 10000 characters,
    a single call otherwise; `chat` is the remote model on user content. -/
def summarize_with_openai (chat : String → Except String String) (transcript : String) :
    Except String String :=
  if transcript.length > 10000 then
    match chunkSummaries chat (openai_chunks transcript) with
    | .error e => .error e
    | .ok summaries =>
      chat ("Create a final summary combining these partial summaries: " ++
        String.intercalate " " summaries)
  else
    chat ("Summarize this meeting transcript: " ++ transcript)

/-- Fuel-indexed Python `str.split()` (no separator): maximal non-whitespace
    tokens, empties dropped. -/
def pySplitWsF : Nat → List Char → List (List Char)
  | 0, _ => []
  | _ + 1, [] => []
  | fuel + 1, c :: rest =>
    if isPySpace c then pySplitWsF fuel rest
    else (c :: rest.takeWhile (fun x => !isPySpace x)) ::
      pySplitWsF fuel (rest.dropWhile (fun x => !isPySpace x))

/-- Python `text.split()`. -/
def pySplitWs (l : List Char) : List (List Char) := pySplitWsF l.length l

/-- Python `' '.join` on character lists. -/
def joinSp : List (List Char) → List Char
  | [] => []
  | [t] => t
  | t :: u :: rest => t ++ ' ' :: joinSp (u :: rest)

/-- The word-accumulating loop of chunk_text: flush the current chunk when
    adding the next word (plus a separating space) would exceed maxLength. -/
def chunkStepL (maxLength : Nat) :
    List (List Char) → List (List Char) → List (List Char) → Nat → List (List Char)
  | [], chunks, current, _ =>
    if current.isEmpty then chunks else chunks ++ [joinSp current]
  | w :: rest, chunks, current, curlen =>
    if curlen + w.length + 1 > maxLength then
      chunkStepL maxLength rest (chunks ++ [joinSp current]) [w] w.length
    else
      chunkStepL maxLength rest chunks (current ++ [w]) (curlen + w.length + 1)

/-- chunk_text: split text into word-bounded chunks of at most roughly
    maxLength characters. -/
def chunk_text (text : String) (maxLength : Nat) : List String :=
  (chunkStepL maxLength (pySplitWs text.data) [] [] 0).map String.mk

/-- The bullet lines of summarize_with_transformers: up to 5 sentences of
    the combined summary, keeping only those longer than 10 characters. -/
def transformersBullets (sentences : List String) : String :=
  String.join ((sentences.take 5).filterMap
    (fun s => if s.length > 10 then some ("- " ++ s ++ "\n") else none))

/-- The document built by summarize_with_transformers once the pipeline has
    been constructed: chunk, summarize each chunk with the loaded pipeline
    (per-chunk failures are swallowed by the inner try/except, keeping only
    successes), combine, and assemble the two-section document. -/
def transformersDoc (summarizer : String → Except String String)
    (transcript : String) : String :=
  let chunks := chunk_text transcript 1000
  let chunk_summaries := chunks.filterMap (fun c => (summarizer c).toOption)
  let combined := String.intercalate " " chunk_summaries
  "## Meeting Summary\n\n" ++ combined ++ "\n\n" ++ "## Key Points\n\n" ++
    transformersBullets ((sentSplit combined.data).map String.mk)

/-- summarize_with_transformers: the pipeline construction
    `pipeline("summarization", model="facebook/bart-large-cnn", device=-1)`
    happens outside any try/except, so a construction failure (the `.error`
    case of `pipelineLoad`) escapes the function uncaught; only with a
    constructed pipeline is the document produced. -/
def summarize_with_transformers
    (pipelineLoad : Except String (String → Except String String))
    (transcript : String) : Except String String :=
  match pipelineLoad with
  | .error e => .error e
  | .ok summarizer => .ok (transformersDoc summarizer transcript)

/-- generate_summary: clean, then remote path if a key is configured (its
    failures are caught and trigger the fallback), then the transformers
    path if the library imported, else the rule-based one.  The result is
    `Except` because nothing catches an exception of the transformers path:
    a pipeline-construction failure propagates out of generate_summary. -/
def generate_summary (hasKey : Bool) (chat : String → Except String String)
    (hasTransformers : Bool)
    (pipelineLoad : Except String (String → Except String String))
    (transcript : String) : Except String String :=
  let cleaned := clean_transcript transcript
  if hasKey then
    match summarize_with_openai chat cleaned with
    | .ok s => .ok s
    | .error _ =>
      if hasTransformers then summarize_with_transformers pipelineLoad cleaned
      else .ok (simple_extractive_summary cleaned)
  else
    if hasTransformers then summarize_with_transformers pipelineLoad cleaned
    else .ok (simple_extractive_summary cleaned)

/-! ## title_generation.py -/

/-- Characters stripped from the front of a remote title line by
    `re.sub(r'^[\d\.\-\*\•\○\□\s]+', '', line)`. -/
def isListMarkup (c : Char) : Bool :=
  c.isDigit || c = '.' || c = '-' || c = '*' || c = '•' || c = '○' ||
    c = '□' || isPySpace c

/-- Clean one response line: strip leading list markup, then strip ends. -/
def cleanTitleLine (line : String) : String :=
  String.mk (pyStripL (line.data.dropWhile isListMarkup))

/-- Python `s.split('\n')` (literal separator, empties kept). -/
def splitOnNl : List Char → List (List Char)
  | [] => [[]]
  | '\n' :: rest => [] :: splitOnNl rest
  | c :: rest =>
    match splitOnNl rest with
    | t :: ts => (c :: t) :: ts
    | [] => [[c]]

/-- The line-parsing stage of generate_titles_with_openai: keep cleaned
    lines that are non-empty and shorter than 60 characters. -/
def parse_titles (content : String) : List String :=
  ((splitOnNl (pyStripL content.data)).map String.mk).filterMap
    (fun line =>
      if cleanTitleLine line ≠ "" ∧ (cleanTitleLine line).length < 60 then
        some (cleanTitleLine line)
      else none)

/-- The `while len(titles) < 3` padding loop, unrolled: each pass appends
    one `"Meeting Summary {len(titles)+1}"`, and at most three passes run
    from any starting length. -/
def padTitles (l : List String) : List String :=
  if l.length < 3 then
    let l1 := l ++ ["Meeting Summary " ++ toString (l.length + 1)]
    if l1.length < 3 then
      let l2 := l1 ++ ["Meeting Summary " ++ toString (l1.length + 1)]
      if l2.length < 3 then l2 ++ ["Meeting Summary " ++ toString (l2.length + 1)]
      else l2
    else l1
  else l

/-- generate_titles_with_openai, as a function of the (already received)
    response content: parse lines, pad to at least 3, return the first 3. -/
def generate_titles_with_openai (content : String) : List String :=
  (padTitles (parse_titles content)).take 3

/-- State machine for `re.sub(r'#+\s+', '', s)`: a run of '#' followed by a
    whitespace run is deleted; a run of '#' not followed by whitespace is
    kept.  Fuel-indexed; `fuel ≥ length of the input` makes it total. -/
def stripHashHeadsF : Nat → List Char → List Char
  | 0, _ => []
  | _ + 1, [] => []
  | fuel + 1, '#' :: rest =>
    match rest.dropWhile (fun c => c == '#') with
    | c :: after2 =>
      if isPySpace c then stripHashHeadsF fuel (after2.dropWhile isPySpace)
      else '#' :: (rest.takeWhile (fun x => x == '#') ++
        stripHashHeadsF fuel (rest.dropWhile (fun x => x == '#')))
    | [] => '#' :: rest.takeWhile (fun x => x == '#')
  | fuel + 1, c :: rest => c :: stripHashHeadsF fuel rest

/-- Markdown-heading-marker removal of extract_key_topics. -/
def stripHashHeads (l : List Char) : List Char := stripHashHeadsF l.length l

/-- State machine for `re.sub(r'\n+', ' ', s)`: replace every maximal run
    of newlines by a single space. -/
def collapseNlAux : Bool → List Char → List Char
  | _, [] => []
  | inRun, c :: rest =>
    if c = '\n' then
      if inRun then collapseNlAux true rest else ' ' :: collapseNlAux true rest
    else c :: collapseNlAux false rest

/-- Newline-run collapsing of extract_key_topics. -/
def collapseNl (l : List Char) : List Char := collapseNlAux false l

/-- The fixed stop-word set of extract_key_topics. -/
def stop_words : List String :=
  ["the", "and", "a", "an", "in", "on", "at", "to", "for", "with",
   "by", "of", "is", "was", "were", "be", "as", "that", "this",
   "key", "point", "points", "meeting", "summary"]

/-- One step of the word_counts dict building: increment an existing key in
    place or append a new key with count 1 (insertion order preserved,
    matching a Python dict). -/
def bumpCount : List (String × Nat) → String → List (String × Nat)
  | [], w => [(w, 1)]
  | (k, n) :: rest, w =>
    if k = w then (k, n + 1) :: rest else (k, n) :: bumpCount rest w

/-- The word-frequency dict of extract_key_topics, as an insertion-ordered
    association list. -/
def wordCounts (ws : List String) : List (String × Nat) := ws.foldl bumpCount []

/-- Stable insertion for descending-count order: an element goes before the
    first entry with a count not larger than its own, so earlier entries win
    ties, matching Python's stable `sorted(..., reverse=True)`. -/
def insDesc (x : String × Nat) : List (String × Nat) → List (String × Nat)
  | [] => [x]
  | y :: rest => if y.2 > x.2 then y :: insDesc x rest else x :: y :: rest

/-- Stable sort by descending count. -/
def sortDescCounts : List (String × Nat) → List (String × Nat)
  | [] => []
  | x :: rest => insDesc x (sortDescCounts rest)

/-- extract_key_topics: strip heading markers, collapse newlines, lowercase,
    split, drop stop words and short words, count, take the 5 most frequent
    (ties by first appearance), with a fixed default when nothing remains. -/
def extract_key_topics (summary : String) : List String :=
  let text := collapseNl (stripHashHeads summary.data)
  let words := (pySplitWs (text.map Char.toLower)).map String.mk
  let filtered := words.filter (fun w => !(stop_words.contains w) && w.length > 3)
  let topics := ((sortDescCounts (wordCounts filtered)).take 5).map (fun p => p.1)
  if topics.isEmpty then ["Business", "Meeting", "Discussion"] else topics

/-- Python str.capitalize: first character upper-cased, the rest lowered. -/
def pyCapitalize (s : String) : String :=
  match s.data with
  | [] => ""
  | c :: rest => String.mk (c.toUpper :: rest.map Char.toLower)

/-- Python str.format restricted to the placeholders `topic1`/`topic2`
    occurring in the fixed template pool: each placeholder occurrence is
    replaced by the corresponding argument, other characters are kept. -/
def substTopics (topic1 topic2 : String) : List Char → List Char
  | '\x7b' :: 't' :: 'o' :: 'p' :: 'i' :: 'c' :: '1' :: '\x7d' :: rest =>
    topic1.data ++ substTopics topic1 topic2 rest
  | '\x7b' :: 't' :: 'o' :: 'p' :: 'i' :: 'c' :: '2' :: '\x7d' :: rest =>
    topic2.data ++ substTopics topic1 topic2 rest
  | c :: rest => c :: substTopics topic1 topic2 rest
  | [] => []

/-- `template.format(topic1=..., topic2=...)` on a template of the pool. -/
def pyFormatBoth (tpl topic1 topic2 : String) : String :=
  String.mk (substTopics topic1 topic2 tpl.data)

/-- `template.format(topic1=...)`: supplying only topic1 raises a KeyError
    (modelled as `none`) when the template still mentions `topic2`. -/
def pyFormatOne (tpl topic1 : String) : Option String :=
  if containsSub tpl "\x7btopic2\x7d" then none
  else some (String.mk (substTopics topic1 "" tpl.data))

/-- The fixed pool of 8 title templates. -/
def templates : List String :=
  ["\x7btopic1\x7d Discussion Summary",
   "\x7btopic1\x7d and \x7btopic2\x7d Planning",
   "Meeting Notes: \x7btopic1\x7d Review",
   "\x7btopic1\x7d Strategy Session",
   "Quarterly \x7btopic1\x7d Update",
   "\x7btopic1\x7d: Analysis & Next Steps",
   "\x7btopic1\x7d Implementation Plan",
   "\x7btopic1\x7d and \x7btopic2\x7d Collaboration"]

/-- Fill one template: the two-placeholder branch formats with both topics,
    the other branch with topic1 only; a missing topic index (Python
    `topics[0]`/`topics[1]`) is a raise, modelled as `none`. -/
def fmtOne (topics : List String) (tpl : String) : Option String :=
  if containsSub tpl "\x7btopic1\x7d" && containsSub tpl "\x7btopic2\x7d" then
    match topics.get? 0, topics.get? 1 with
    | some a, some b => some (pyFormatBoth tpl (pyCapitalize a) (pyCapitalize b))
    | _, _ => none
  else
    match topics.get? 0 with
    | some a => pyFormatOne tpl (pyCapitalize a)
    | none => none

/-- The `for template in templates[:3]` loop of generate_titles_rule_based. -/
def fmtTemplates (topics : List String) : List String → Option (List String)
  | [] => some []
  | tpl :: rest =>
    match fmtOne topics tpl, fmtTemplates topics rest with
    | some t, some ts => some (t :: ts)
    | _, _ => none

/-- generate_titles_rule_based, as a function of the already-shuffled
    template list (`random.shuffle` is the only randomness; a run of the
    Python function corresponds to one permutation `shuffled` of
    `templates`).  `none` models an uncaught exception. -/
def generate_titles_rule_based (shuffled : List String) (summary : String) :
    Option (List String) :=
  let topics0 := extract_key_topics summary
  let topics :=
    if topics0.length < 2 then topics0 ++ ["Discussion", "Planning", "Review"]
    else topics0
  fmtTemplates topics (shuffled.take 3)

/-- generate_titles: the remote path parses the response content when a key
    is configured and the call succeeds, otherwise the rule-based fallback
    runs with some shuffle outcome. -/
def generate_titles (hasKey : Bool) (remote : Except String String)
    (shuffled : List String) (summary : String) : Option (List String) :=
  if hasKey then
    match remote with
    | .ok content => some (generate_titles_with_openai content)
    | .error _ => generate_titles_rule_based shuffled summary
  else generate_titles_rule_based shuffled summary

/-- A full rule-based summarizer run, with the process-wide random source
    threaded as an explicit parameter: the summarization code never consults
    it (only title generation does), which is what claim C10 is about. -/
def rule_based_summary_run (_randomShuffle : List String → List String)
    (transcript : String) : String :=
  simple_extractive_summary (clean_transcript transcript)

/-- Adjacent differing pairs in a list of labels. -/
def countChangesAux : List String → Nat
  | [] => 0
  | [_] => 0
  | a :: b :: rest => (if a ≠ b then 1 else 0) + countChangesAux (b :: rest)

/-- Number of transitions between consecutive differing captured speaker
    labels.  Modelled from the spec: the claimed third Key Points statistic,
    "number of speaker-turn transitions", for comparison with the code. -/
def speakerTransitions (transcript : String) : Nat :=
  countChangesAux (findSpeakers transcript.data)

/-! ## Substring and string-emptiness helper lemmas -/

theorem isSubList_nil (l : List Char) : isSubList [] l = true := by
  induction l with
  | nil => rfl
  | cons c cs ih => simp [isSubList, listIsPre]

theorem listIsPre_self_append (p r : List Char) : listIsPre p (p ++ r) = true := by
  induction p with
  | nil => rfl
  | cons x xs ih => simp [listIsPre, ih]

theorem listIsPre_extend (p : List Char) :
    ∀ l r, listIsPre p l = true → listIsPre p (l ++ r) = true := by
  induction p with
  | nil => intro l r _; rfl
  | cons x xs ih =>
    intro l r h
    cases l with
    | nil => simp [listIsPre] at h
    | cons c cs =>
      simp [listIsPre] at h
      simp [listIsPre, h.1, ih cs r h.2]

theorem subl_cons (pat l : List Char) (c : Char) (h : isSubList pat l = true) :
    isSubList pat (c :: l) = true := by
  simp [isSubList, h]

theorem subl_here (pat r : List Char) : isSubList pat (pat ++ r) = true := by
  cases pat with
  | nil => exact isSubList_nil r
  | cons x xs =>
    simp only [List.cons_append, isSubList, Bool.or_eq_true]
    exact Or.inl (listIsPre_self_append (x :: xs) r)

theorem subl_prepend (pat l1 l2 : List Char) (h : isSubList pat l2 = true) :
    isSubList pat (l1 ++ l2) = true := by
  induction l1 with
  | nil => exact h
  | cons c cs ih => exact subl_cons pat (cs ++ l2) c ih

theorem subl_extend (pat : List Char) :
    ∀ l1 l2, isSubList pat l1 = true → isSubList pat (l1 ++ l2) = true := by
  intro l1
  induction l1 with
  | nil =>
    intro l2 h
    cases pat with
    | nil => exact isSubList_nil l2
    | cons x xs => simp [isSubList] at h
  | cons c cs ih =>
    intro l2 h
    simp only [isSubList, Bool.or_eq_true] at h
    rcases h with h | h
    · have := listIsPre_extend pat (c :: cs) l2 h
      simp only [List.cons_append] at this ⊢
      simp [isSubList, this]
    · simp only [List.cons_append]
      exact subl_cons pat (cs ++ l2) c (ih l2 h)

theorem containsSub_left (s t pat : String) (h : containsSub s pat = true) :
    containsSub (s ++ t) pat = true := by
  unfold containsSub at h ⊢
  rw [String.data_append]
  exact subl_extend pat.data s.data t.data h

theorem containsSub_right (s t pat : String) (h : containsSub t pat = true) :
    containsSub (s ++ t) pat = true := by
  unfold containsSub at h ⊢
  rw [String.data_append]
  exact subl_prepend pat.data s.data t.data h

theorem str_mk_eq_empty (l : List Char) : String.mk l = "" ↔ l = [] := by
  constructor
  · intro h; exact congrArg String.data h
  · intro h; subst h; rfl

theorem strApp_eq_empty (s t : String) : s ++ t = "" ↔ s = "" ∧ t = "" := by
  constructor
  · intro h
    have h2 := congrArg String.data h
    rw [String.data_append] at h2
    have h3 := List.append_eq_nil.mp h2
    exact ⟨String.ext h3.1, String.ext h3.2⟩
  · rintro ⟨rfl, rfl⟩; rfl

theorem strApp_ne_empty_left (s t : String) (h : s ≠ "") : s ++ t ≠ "" := by
  intro hc; exact h ((strApp_eq_empty s t).mp hc).1

theorem strApp_ne_empty_right (s t : String) (h : t ≠ "") : s ++ t ≠ "" := by
  intro hc; exact h ((strApp_eq_empty s t).mp hc).2

/-! ## Claim C3: Summarizer output structure -/

theorem simple_markers (t : String) :
    containsSub (simple_extractive_summary t) "## Meeting Summary" = true ∧
    containsSub (simple_extractive_summary t) "## Key Points" = true := by
  unfold simple_extractive_summary
  constructor
  · exact containsSub_left _ _ _ (containsSub_left _ _ _ (containsSub_left _ _ _
      (containsSub_left _ _ _ (containsSub_left _ _ _ (containsSub_left _ _ _
        (by decide))))))
  · exact containsSub_left _ _ _ (containsSub_left _ _ _ (containsSub_left _ _ _
      (containsSub_right _ _ _ (by decide))))

theorem transformers_markers (summarizer : String → Except String String) (t : String) :
    containsSub (transformersDoc summarizer t) "## Meeting Summary" = true ∧
    containsSub (transformersDoc summarizer t) "## Key Points" = true := by
  unfold transformersDoc
  constructor
  · exact containsSub_left _ _ _ (containsSub_left _ _ _ (containsSub_left _ _ _
      (containsSub_left _ _ _ (by decide))))
  · exact containsSub_left _ _ _ (containsSub_right _ _ _ (by decide))

/-- C3: amended.  On every path that does not end with a successful remote
    call (no key configured, or the remote summarization raised): if the
    transformers library is absent, or its summarization pipeline is
    constructed successfully, generate_summary returns without raising a
    document containing both the narrative marker "## Meeting Summary" and
    the "## Key Points" marker; but when the transformers library is
    present and the pipeline construction fails, that exception escapes
    generate_summary uncaught.  The original claim also fails on the
    remote path, which returns the remote model's text verbatim (see the
    counterexample). -/
theorem claim3_summarizer_amended (t : String) (chat : String → Except String String)
    (hasTransformers : Bool)
    (pipelineLoad : Except String (String → Except String String)) (hasKey : Bool)
    (hfb : hasKey = false ∨
      ∃ e, summarize_with_openai chat (clean_transcript t) = Except.error e) :
    ((hasTransformers = false ∨ ∃ summarizer, pipelineLoad = Except.ok summarizer) →
      ∃ out, generate_summary hasKey chat hasTransformers pipelineLoad t = Except.ok out ∧
        containsSub out "## Meeting Summary" = true ∧
        containsSub out "## Key Points" = true) ∧
    (∀ e, hasTransformers = true → pipelineLoad = Except.error e →
      generate_summary hasKey chat hasTransformers pipelineLoad t = Except.error e) := by
  have hred : generate_summary hasKey chat hasTransformers pipelineLoad t =
      (if hasTransformers then summarize_with_transformers pipelineLoad (clean_transcript t)
       else Except.ok (simple_extractive_summary (clean_transcript t))) := by
    rcases hfb with rfl | ⟨e, he⟩
    · simp [generate_summary]
    · cases hasKey
      · simp [generate_summary]
      · simp [generate_summary, he]
  constructor
  · intro hload
    rw [hred]
    cases hasTransformers with
    | false =>
      exact ⟨simple_extractive_summary (clean_transcript t), by simp,
        (simple_markers _).1, (simple_markers _).2⟩
    | true =>
      rcases hload with h | ⟨summarizer, rfl⟩
      · simp at h
      · exact ⟨transformersDoc summarizer (clean_transcript t),
          by simp [summarize_with_transformers],
          (transformers_markers _ _).1, (transformers_markers _ _).2⟩
  · intro e hT hload
    subst hT
    subst hload
    rw [hred]
    simp [summarize_with_transformers]

/-- C3 witness: the amended theorem applied at concrete configurations —
    the rule-based branch produces a document (an `ok` result), and with
    the transformers library present the pipeline-construction failure
    escapes as-is. -/
theorem claim3_witness :
    (generate_summary false (fun _ => Except.error "") false
      (Except.error "no model") "").toOption ≠ none ∧
    generate_summary false (fun _ => Except.error "") true
      (Except.error "no model") "" = Except.error "no model" := by
  have h1 := claim3_summarizer_amended "" (fun _ => Except.error "") false
    (Except.error "no model") false (Or.inl rfl)
  have h2 := claim3_summarizer_amended "" (fun _ => Except.error "") true
    (Except.error "no model") false (Or.inl rfl)
  rcases h1.1 (Or.inl rfl) with ⟨out, hout, _, _⟩
  refine ⟨?_, h2.2 "no model" rfl rfl⟩
  rw [hout]
  simp [Except.toOption]

/-- C3 counterexample: with a key configured and a remote model that
    answers "hello", generate_summary returns "hello", which contains no
    "Key Points" marker; and with the transformers library present but its
    pipeline construction failing, generate_summary raises instead of
    returning a document — the claim as stated fails on these inputs. -/
theorem claim3_counterexample :
    generate_summary true (fun _ => Except.ok "hello") false
      (Except.error "boom") "" = Except.ok "hello" ∧
    containsSub "hello" "Key Points" = false ∧
    generate_summary false (fun _ => Except.error "") true
      (Except.error "load failure") "" = Except.error "load failure" := by
  refine ⟨rfl, by decide, rfl⟩

/-! ## Claim C5: remote-path chunk slicing -/

theorem chunksF_flatten : ∀ (fuel : Nat) (l : List Char), l.length ≤ fuel →
    (chunksF fuel l).flatten = l := by
  intro fuel
  induction fuel with
  | zero =>
    intro l h
    have hl : l = [] := List.eq_nil_of_length_eq_zero (Nat.le_zero.mp h)
    subst hl; rfl
  | succ fuel ih =>
    intro l h
    cases l with
    | nil => rfl
    | cons c rest =>
      simp only [chunksF, List.flatten_cons]
      have hlen : ((c :: rest).drop 10000).length ≤ fuel := by
        rw [List.length_drop]; simp only [List.length_cons] at h ⊢; omega
      rw [ih _ hlen, List.take_append_drop]

theorem chunksF_length : ∀ (fuel : Nat) (l : List Char), l.length ≤ fuel →
    (chunksF fuel l).length = (l.length + 9999) / 10000 := by
  intro fuel
  induction fuel with
  | zero =>
    intro l h
    have hl : l = [] := List.eq_nil_of_length_eq_zero (Nat.le_zero.mp h)
    subst hl; decide
  | succ fuel ih =>
    intro l h
    cases l with
    | nil => simp [chunksF]
    | cons c rest =>
      simp only [chunksF, List.length_cons]
      have hlen : ((c :: rest).drop 10000).length ≤ fuel := by
        rw [List.length_drop]; simp only [List.length_cons] at h ⊢; omega
      rw [ih _ hlen, List.length_drop]
      simp only [List.length_cons]
      omega

theorem chunksF_mem_le : ∀ (fuel : Nat) (l t : List Char), t ∈ chunksF fuel l →
    t.length ≤ 10000 := by
  intro fuel
  induction fuel with
  | zero => intro l t h; simp [chunksF] at h
  | succ fuel ih =>
    intro l t h
    cases l with
    | nil => simp [chunksF] at h
    | cons c rest =>
      simp only [chunksF, List.mem_cons] at h
      rcases h with rfl | h
      · rw [List.length_take]; exact min_le_left _ _
      · exact ih _ t h

/-- C5: when the normalized transcript exceeds the 10000-character chunk
    size, summarize_with_openai slices it into contiguous chunks via
    openai_chunks; the in-order concatenation of the chunks reconstructs the
    text exactly, every chunk holds at most 10000 characters, and a
    25000-character transcript yields exactly 3 chunks. -/
theorem claim5_remote_chunking (s : String) :
    ((openai_chunks s).map String.data).flatten = s.data ∧
    (∀ c ∈ openai_chunks s, c.length ≤ 10000) ∧
    (s.length = 25000 → (openai_chunks s).length = 3) := by
  refine ⟨?_, ?_, ?_⟩
  · unfold openai_chunks
    rw [List.map_map]
    have hid : (String.data ∘ String.mk) = id := rfl
    rw [hid, List.map_id]
    exact chunksF_flatten _ _ le_rfl
  · intro c hc
    unfold openai_chunks at hc
    rcases List.mem_map.mp hc with ⟨t, ht, rfl⟩
    rw [String.length_mk]
    exact chunksF_mem_le _ _ t ht
  · intro h
    unfold openai_chunks
    rw [List.length_map, chunksF_length _ _ le_rfl]
    have hlen : s.data.length = 25000 := h
    rw [hlen]

/-- C5 witness: a concrete 25000-character transcript yields 3 chunks. -/
theorem claim5_witness :
    (openai_chunks (String.mk (List.replicate 25000 'a'))).length = 3 :=
  (claim5_remote_chunking (String.mk (List.replicate 25000 'a'))).2.2
    (by rw [String.length_mk, List.length_replicate])

/-! ## Claim C4: speaker-turn merging on the remote transcription path -/

theorem openaiLoop_count : ∀ (segs : List OSeg) (fmt : String) (cur : Option String),
    (∀ g ∈ segs, '\n' ∉ g.text.data ∧ '\n' ∉ (speakerLabel g).data) →
    (openaiLoop segs fmt cur).data.count '\n' =
      fmt.data.count '\n' + segChanges cur segs := by
  intro segs
  induction segs with
  | nil => intro fmt cur _; simp [openaiLoop, segChanges]
  | cons seg rest ih =>
    intro fmt cur H
    have Hh := H seg (List.mem_cons_self _ _)
    have Ht : ∀ g ∈ rest, '\n' ∉ g.text.data ∧ '\n' ∉ (speakerLabel g).data :=
      fun g hg => H g (List.mem_cons_of_mem _ hg)
    have htext : seg.text.data.count '\n' = 0 := List.count_eq_zero.mpr Hh.1
    have hspk : (speakerLabel seg).data.count '\n' = 0 := List.count_eq_zero.mpr Hh.2
    have hsp : (" " : String).data.count '\n' = 0 := by decide
    have hnl : ("\n" : String).data.count '\n' = 1 := by decide
    have hcol : (": " : String).data.count '\n' = 0 := by decide
    by_cases hc : some (speakerLabel seg) = cur
    · simp only [openaiLoop, hc, if_pos]
      rw [ih _ _ Ht]
      simp only [segChanges, hc, if_pos]
      simp only [String.data_append, List.count_append, htext, hsp]
      omega
    · simp only [openaiLoop, hc, if_neg, not_false_iff]
      rw [ih _ _ Ht]
      simp only [segChanges, hc, if_neg, not_false_iff]
      simp only [String.data_append, List.count_append, htext, hspk, hnl, hcol]
      omega

/-- C4: with segment-level speaker tags, the built transcript starts a new
    speaker header exactly when the tag changes between consecutive segments
    (the number of emitted headers, counted by newlines, equals the number
    of tag changes), and merges adjacent same-speaker segments: on
    [(A,"hi"), (A,"there"), (B,"hey")] the result is exactly 2 turns, the
    first covering "hi there". -/
theorem claim4_turn_merging :
    (∀ segs : List OSeg,
      (∀ g ∈ segs, '\n' ∉ g.text.data ∧ '\n' ∉ (speakerLabel g).data) →
      (openaiLoop segs "" none).data.count '\n' = segChanges none segs) ∧
    transcribe_with_openai (OpenAIResp.withSegments
      [⟨some "A", "hi"⟩, ⟨some "A", "there"⟩, ⟨some "B", "hey"⟩]) =
      "Speaker A: hi there\nSpeaker B: hey" ∧
    ((splitOnNl (transcribe_with_openai (OpenAIResp.withSegments
      [⟨some "A", "hi"⟩, ⟨some "A", "there"⟩, ⟨some "B", "hey"⟩])).data).map String.mk =
      ["Speaker A: hi there", "Speaker B: hey"]) ∧
    segChanges none [⟨some "A", "hi"⟩, ⟨some "A", "there"⟩, ⟨some "B", "hey"⟩] = 2 := by
  refine ⟨?_, by decide, by decide, by decide⟩
  intro segs H
  simpa using openaiLoop_count segs "" none H

/-- C4 witness: the header-count identity applied to the concrete
    three-segment example. -/
theorem claim4_witness :
    (openaiLoop [⟨some "A", "hi"⟩, ⟨some "A", "there"⟩, ⟨some "B", "hey"⟩] "" none).data.count '\n' =
      segChanges none [⟨some "A", "hi"⟩, ⟨some "A", "there"⟩, ⟨some "B", "hey"⟩] :=
  claim4_turn_merging.1 _ (by decide)

/-! ## Claim C9: rule-based topic extraction -/

/-- C9: extract_key_topics lower-cases the summary with heading markers
    stripped, discards stop words and words of at most 3 characters, and
    returns at most 5 words by descending frequency with first-seen tie
    order: on the concrete summary it ranks budget over planning over
    review and drops the stop words and short words. -/
theorem claim9_topic_extraction :
    extract_key_topics "## Meeting Summary\n\nBudget budget budget planning planning review" =
      ["budget", "planning", "review"] ∧
    ∀ s : String, (extract_key_topics s).length ≤ 5 := by
  refine ⟨by decide, ?_⟩
  intro s
  simp only [extract_key_topics]
  split
  · decide
  · rw [List.length_map, List.length_take]
    exact min_le_left _ _

/-! ## Claim C7: Key Points statistics of the extractive summary -/

/-- C7 counterexample: on the claim's own transcript the number of
    speaker-turn transitions is 2, but the third Key Points statistic
    reports 3 — it counts all speaker-label occurrences (turns), not
    transitions, so the section does not report the transition count. -/
theorem claim7_counterexample :
    speakerTransitions
      "Speaker A: Hello. Speaker B: Let\x27s discuss budget. Speaker A: Agreed." = 2 ∧
    containsSub (simple_extractive_summary
        "Speaker A: Hello. Speaker B: Let\x27s discuss budget. Speaker A: Agreed.")
      "- Total of 3 speaker changes occurred" = true ∧
    containsSub (simple_extractive_summary
        "Speaker A: Hello. Speaker B: Let\x27s discuss budget. Speaker A: Agreed.")
      "- Total of 2 speaker changes occurred" = false := by
  decide

/-- C7 amended: the Key Points section reports exactly three statistics
    computed by scanning the transcript for the speaker-label pattern: the
    distinct-speaker count, the sentence count, and the total number of
    speaker-label occurrences (the turn count, which the output calls
    "speaker changes") rather than the transition count; on the concrete
    transcript it reports 2 distinct speakers, 3 sentences and 3 speaker
    changes, which is at least 1. -/
theorem claim7_key_points_amended :
    containsSub (simple_extractive_summary
        "Speaker A: Hello. Speaker B: Let\x27s discuss budget. Speaker A: Agreed.")
      "- Meeting included 2 participants" = true ∧
    containsSub (simple_extractive_summary
        "Speaker A: Hello. Speaker B: Let\x27s discuss budget. Speaker A: Agreed.")
      "- The transcript contains 3 sentences" = true ∧
    containsSub (simple_extractive_summary
        "Speaker A: Hello. Speaker B: Let\x27s discuss budget. Speaker A: Agreed.")
      "- Total of 3 speaker changes occurred" = true ∧
    (findSpeakers
      "Speaker A: Hello. Speaker B: Let\x27s discuss budget. Speaker A: Agreed.".data).dedup.length
      = 2 ∧
    (sentSplit
      "Speaker A: Hello. Speaker B: Let\x27s discuss budget. Speaker A: Agreed.".data).length
      = 3 ∧
    1 ≤ (findSpeakers
      "Speaker A: Hello. Speaker B: Let\x27s discuss budget. Speaker A: Agreed.".data).length := by
  decide

/-! ## Claim C10: determinism of the rule-based summary path -/

/-- C10: the fully rule-based summarization path is deterministic: two runs
    with different process random sources produce identical summaries —
    while the title path does consult the random source (two shuffle
    outcomes of the same template pool can give different titles). -/
theorem claim10_summary_determinism :
    (∀ (f g : List String → List String) (t : String),
      rule_based_summary_run f t = rule_based_summary_run g t) ∧
    ∃ p1 p2 : List String, p1.Perm templates ∧ p2.Perm templates ∧
      generate_titles_rule_based p1 "x" ≠ generate_titles_rule_based p2 "x" := by
  refine ⟨fun _ _ _ => rfl, templates, templates.reverse, List.Perm.refl _,
    List.reverse_perm templates, by decide⟩

/-! ## Claim C8: transcript normalization -/

theorem collapseWsAux_space : ∀ (l : List Char) (st : Bool) (c : Char),
    c ∈ collapseWsAux st l → isPySpace c = true → c = ' ' := by
  intro l
  induction l with
  | nil => intro st c h; simp [collapseWsAux] at h
  | cons x rest ih =>
    intro st c h hws
    by_cases hx : isPySpace x = true
    · cases st with
      | false =>
        simp only [collapseWsAux, hx, if_true] at h
        rcases List.mem_cons.mp h with rfl | h2
        · rfl
        · exact ih true c h2 hws
      | true =>
        simp only [collapseWsAux, hx, if_true] at h
        exact ih true c h hws
    · simp only [collapseWsAux, hx, if_false] at h
      rcases List.mem_cons.mp h with rfl | h2
      · exact absurd hws hx
      · exact ih false c h2 hws

theorem dropWhile_head_false {α : Type} (p : α → Bool) :
    ∀ (l : List α) (x : α) (rest : List α), l.dropWhile p = x :: rest → p x = false := by
  intro l
  induction l with
  | nil => intro x rest h; simp [List.dropWhile] at h
  | cons c cs ih =>
    intro x rest h
    rw [List.dropWhile_cons] at h
    split at h
    · exact ih x rest h
    · injection h with h1 h2
      subst h1
      rename_i hpc
      exact Bool.not_eq_true _ ▸ eq_false_of_ne_true hpc

theorem removeBracketsF_sublist : ∀ (fuel : Nat) (l : List Char),
    (removeBracketsF fuel l).Sublist l := by
  intro fuel
  induction fuel with
  | zero => intro l; exact List.nil_sublist l
  | succ fuel ih =>
    intro l
    cases l with
    | nil => exact List.Sublist.refl _
    | cons c rest =>
      by_cases hc : c = '['
      · subst hc
        simp only [removeBracketsF, if_pos]
        rcases hdw : rest.dropWhile (fun x => !(x == ']' || x == '\n')) with _ | ⟨x, rest2⟩
        · exact List.Sublist.cons₂ '[' (ih rest)
        · have hx := dropWhile_head_false _ rest x rest2 hdw
          have hx2 : x = ']' ∨ x = '\n' := or_iff_not_imp_left.mpr (by simpa using hx)
          rcases hx2 with rfl | rfl
          · have h1 : (']' :: rest2).Sublist rest := hdw ▸ List.dropWhile_sublist _
            have h2 : rest2.Sublist rest := ((List.Sublist.refl rest2).cons ']').trans h1
            exact ((ih rest2).trans h2).cons '['
          · exact List.Sublist.cons₂ '[' (ih rest)
      · simp only [removeBracketsF, if_neg hc]
        exact List.Sublist.cons₂ c (ih rest)

theorem pyStripL_sublist (l : List Char) : (pyStripL l).Sublist l := by
  unfold pyStripL
  have h1 : (l.dropWhile isPySpace).Sublist l := List.dropWhile_sublist _
  have h2 : ((l.dropWhile isPySpace).reverse.dropWhile isPySpace).Sublist
      (l.dropWhile isPySpace).reverse := List.dropWhile_sublist _
  have h3 := h2.reverse
  rw [List.reverse_reverse] at h3
  exact h3.trans h1

theorem removeBracketsF_no_pair : ∀ (fuel : Nat) (l : List Char),
    (∀ x ∈ l, x ≠ '\n') → ¬ (['[', ']'].Sublist (removeBracketsF fuel l)) := by
  intro fuel
  induction fuel with
  | zero => intro l _ h; simp [removeBracketsF] at h
  | succ fuel ih =>
    intro l hnl
    cases l with
    | nil => intro h; simp [removeBracketsF] at h
    | cons c rest =>
      have hnlr : ∀ x ∈ rest, x ≠ '\n' := fun x hx => hnl x (List.mem_cons_of_mem _ hx)
      by_cases hc : c = '['
      · subst hc
        simp only [removeBracketsF, if_pos]
        rcases hdw : rest.dropWhile (fun x => !(x == ']' || x == '\n')) with _ | ⟨x, rest2⟩
        · intro h
          have hnocl : ∀ x ∈ rest, x ≠ ']' := by
            intro x hx
            have h4 := List.dropWhile_eq_nil_iff.mp hdw x hx
            have h5 : ¬(x = ']' ∨ x = '\n') := by simpa using h4
            exact fun hxe => h5 (Or.inl hxe)
          cases h with
          | cons _ h2 => exact ih rest hnlr h2
          | cons₂ _ h2 =>
            have hmem := List.singleton_sublist.mp h2
            have h6 := (removeBracketsF_sublist fuel rest).subset hmem
            exact hnocl ']' h6 rfl
        · have hx := dropWhile_head_false _ rest x rest2 hdw
          have hx2 : x = ']' ∨ x = '\n' := or_iff_not_imp_left.mpr (by simpa using hx)
          rcases hx2 with rfl | rfl
          · intro h
            have hnlr2 : ∀ y ∈ rest2, y ≠ '\n' := by
              intro y hy
              have hsub : (']' :: rest2).Sublist rest := hdw ▸ List.dropWhile_sublist _
              exact hnlr y (hsub.subset (List.mem_cons_of_mem _ hy))
            exact ih rest2 hnlr2 h
          · intro _
            have hdrop : ('\n' : Char) ∈ rest := by
              have hsub : ('\n' :: rest2).Sublist rest := hdw ▸ List.dropWhile_sublist _
              exact hsub.subset (List.mem_cons_self _ _)
            exact hnlr '\n' hdrop rfl
      · simp only [removeBracketsF, if_neg hc]
        intro h
        cases h with
        | cons _ h2 => exact ih rest hnlr h2
        | cons₂ _ _ => exact hc rfl

/-- C8 amended: clean_transcript first collapses whitespace runs and then
    removes bracketed annotations, so every whitespace character of the
    result is a single plain space (no tabs or newlines survive) and no
    bracketed `[...]` token remains (no '[' is followed by a later ']').
    The original claim's "no two consecutive whitespace characters" fails:
    deleting an annotation can leave two adjacent spaces (counterexample). -/
theorem claim8_normalization_amended (s : String) :
    (∀ c ∈ (clean_transcript s).data, isPySpace c = true → c = ' ') ∧
    ¬ (['[', ']'].Sublist (clean_transcript s).data) := by
  have hsub : ((clean_transcript s).data).Sublist (removeBrackets (collapseWs s.data)) :=
    pyStripL_sublist _
  have hsub2 : (removeBrackets (collapseWs s.data)).Sublist (collapseWs s.data) :=
    removeBracketsF_sublist _ _
  constructor
  · intro c hc hws
    have hc2 : c ∈ collapseWs s.data := (hsub.trans hsub2).subset hc
    exact collapseWsAux_space _ _ _ hc2 hws
  · intro hpair
    have hnl : ∀ x ∈ collapseWs s.data, x ≠ '\n' := by
      intro x hx hxe
      have hsp := collapseWsAux_space _ _ _ hx (by rw [hxe]; decide)
      rw [hxe] at hsp
      exact absurd hsp (by decide)
    exact removeBracketsF_no_pair _ _ hnl (hpair.trans hsub)

/-- C8 witness: the amended theorem applied at a concrete input containing
    a tab, an annotation and surrounding whitespace. -/
theorem claim8_witness :
    (' ' = ' ') ∧ ¬ (['[', ']'].Sublist (clean_transcript " a\t[x] b ").data) :=
  ⟨(claim8_normalization_amended " a\t[x] b ").1 ' ' (by decide) (by decide),
   (claim8_normalization_amended " a\t[x] b ").2⟩

/-- C8 counterexample: removing the annotation "[x]" from "a [x] b" leaves
    "a  b", which contains two consecutive spaces — the claim's "no two
    consecutive whitespace characters" fails on this input. -/
theorem claim8_counterexample :
    clean_transcript "a [x] b" = "a  b" ∧
    isSubList [' ', ' '] (clean_transcript "a [x] b").data = true := by
  decide

/-! ## Claim C2: Transcriber totality and emptiness analysis -/

theorem whisperLoop_eq_empty : ∀ (segs : List WSeg) (fmt chunk : String),
    whisperLoop segs fmt chunk = "" → fmt = "" ∧ chunk ++ concatSegTexts segs = "" := by
  intro segs
  induction segs with
  | nil =>
    intro fmt chunk h
    simp only [whisperLoop] at h
    split at h
    · exfalso
      have h2 := ((strApp_eq_empty _ _).mp h).2
      exact absurd h2 (by decide)
    · rename_i hchunk
      rw [not_not] at hchunk
      refine ⟨h, ?_⟩
      rw [hchunk]
      simp [concatSegTexts, String.empty_append]
  | cons s rest ih =>
    intro fmt chunk h
    simp only [whisperLoop] at h
    split at h
    · exfalso
      have h2 := ih _ _ h
      have h3 := ((strApp_eq_empty _ _).mp h2.1).2
      exact absurd h3 (by decide)
    · have h2 := ih _ _ h
      refine ⟨h2.1, ?_⟩
      have h3 := h2.2
      rw [String.append_assoc] at h3
      simpa [concatSegTexts] using h3

theorem whisperLoop_shape : ∀ (segs : List WSeg) (fmt chunk : String),
    whisperLoop segs fmt chunk = fmt ∨
    ∃ r : String, whisperLoop segs fmt chunk = fmt ++ ("\nSpeaker: " ++ r) := by
  intro segs
  induction segs with
  | nil =>
    intro fmt chunk
    simp only [whisperLoop]
    split
    · right
      exact ⟨chunk ++ "\n", by simp [String.append_assoc]⟩
    · left; rfl
  | cons s rest ih =>
    intro fmt chunk
    simp only [whisperLoop]
    split
    · rcases ih (fmt ++ "\nSpeaker: " ++ (chunk ++ s.text.getD "") ++ "\n") "" with h | ⟨r, h⟩
      · right
        exact ⟨(chunk ++ s.text.getD "") ++ "\n", by rw [h]; simp [String.append_assoc]⟩
      · right
        refine ⟨(chunk ++ s.text.getD "") ++ ("\n" ++ ("\nSpeaker: " ++ r)), ?_⟩
        rw [h]; simp [String.append_assoc]
    · exact ih fmt (chunk ++ s.text.getD "")

theorem mem_dropWhile_of_not (p : Char → Bool) :
    ∀ (l : List Char) (c : Char), c ∈ l → p c = false → c ∈ l.dropWhile p := by
  intro l
  induction l with
  | nil => intro c h _; simp at h
  | cons x rest ih =>
    intro c hc hpc
    rw [List.dropWhile_cons]
    split
    · rcases List.mem_cons.mp hc with rfl | h2
      · rename_i hx; rw [hpc] at hx; exact absurd hx (by simp)
      · exact ih c h2 hpc
    · exact hc

theorem pyStripL_ne_nil (l : List Char) (c : Char) (hc : c ∈ l)
    (hpc : isPySpace c = false) : pyStripL l ≠ [] := by
  unfold pyStripL
  intro h
  have h1 : c ∈ l.dropWhile isPySpace := mem_dropWhile_of_not _ l c hc hpc
  have h2 : c ∈ (l.dropWhile isPySpace).reverse := List.mem_reverse.mpr h1
  have h3 : c ∈ (l.dropWhile isPySpace).reverse.dropWhile isPySpace :=
    mem_dropWhile_of_not _ _ c h2 hpc
  rw [List.reverse_eq_nil_iff] at h
  rw [h] at h3
  simp at h3

theorem whisper_empty_imp (wres : Except String (List WSeg))
    (h : transcribe_with_whisper wres = "") :
    ∃ segs, wres = Except.ok segs ∧ concatSegTexts segs = "" := by
  cases wres with
  | error e =>
    exfalso
    have h2 := ((strApp_eq_empty _ _).mp h).1
    exact absurd h2 (by decide)
  | ok segs =>
    refine ⟨segs, rfl, ?_⟩
    rcases whisperLoop_shape segs "" "" with hs | ⟨r, hs⟩
    · have h2 := whisperLoop_eq_empty segs "" "" hs
      have h3 := h2.2
      rwa [String.empty_append] at h3
    · exfalso
      have hS : ('S' : Char) ∈ (whisperLoop segs "" "").data := by
        rw [hs, String.empty_append, String.data_append]
        exact List.mem_append.mpr (Or.inl (by decide))
      have h4 := pyStripL_ne_nil _ 'S' hS (by decide)
      exact h4 ((str_mk_eq_empty _).mp h)

theorem openaiLoop_extends : ∀ (segs : List OSeg) (fmt : String) (cur : Option String),
    ∃ t : String, openaiLoop segs fmt cur = fmt ++ t := by
  intro segs
  induction segs with
  | nil => intro fmt cur; exact ⟨"", by simp [openaiLoop, String.append_empty]⟩
  | cons s rest ih =>
    intro fmt cur
    simp only [openaiLoop]
    split
    · rcases ih (fmt ++ " " ++ s.text) cur with ⟨t, h⟩
      exact ⟨" " ++ s.text ++ t, by rw [h]; simp [String.append_assoc]⟩
    · rcases ih (fmt ++ "\n" ++ speakerLabel s ++ ": " ++ s.text) (some (speakerLabel s)) with ⟨t, h⟩
      exact ⟨"\n" ++ speakerLabel s ++ ": " ++ s.text ++ t, by rw [h]; simp [String.append_assoc]⟩

theorem openai_segments_ne_empty (g : OSeg) (gs : List OSeg) :
    transcribe_with_openai (OpenAIResp.withSegments (g :: gs)) ≠ "" := by
  intro h
  have h0 : openaiLoop (g :: gs) "" none =
      openaiLoop gs ("" ++ "\n" ++ speakerLabel g ++ ": " ++ g.text) (some (speakerLabel g)) := by
    simp [openaiLoop]
  rcases openaiLoop_extends gs ("" ++ "\n" ++ speakerLabel g ++ ": " ++ g.text)
      (some (speakerLabel g)) with ⟨t, ht⟩
  have hS : ('S' : Char) ∈ (openaiLoop (g :: gs) "" none).data := by
    rw [h0, ht]
    rw [String.data_append, String.data_append, String.data_append, String.data_append]
    have hmem : ('S' : Char) ∈ (speakerLabel g).data := by
      unfold speakerLabel
      rw [String.data_append]
      exact List.mem_append.mpr (Or.inl (by decide))
    refine List.mem_append.mpr (Or.inl ?_)
    refine List.mem_append.mpr (Or.inl ?_)
    refine List.mem_append.mpr (Or.inl ?_)
    exact List.mem_append.mpr (Or.inr hmem)
  have h4 := pyStripL_ne_nil _ 'S' hS (by decide)
  exact h4 ((str_mk_eq_empty _).mp h)

/-- C2 amended: transcribe_audio is total; when the local Whisper path
    raises it returns the non-empty failure description "Transcription
    failed: ..." (also when the remote path was skipped or failed first);
    the returned transcript can only be empty when the Whisper path
    succeeds with segments whose concatenated text is empty, or the remote
    path succeeds with an empty segment list.  The original claim's
    unconditional non-emptiness fails (see the counterexample). -/
theorem claim2_transcriber_amended (hasKey : Bool) (remote : Except String OpenAIResp)
    (wres : Except String (List WSeg)) :
    (∀ e, wres = Except.error e →
      transcribe_with_whisper wres = "Transcription failed: " ++ e ∧
      transcribe_with_whisper wres ≠ "") ∧
    (∀ e, wres = Except.error e → (hasKey = false ∨ ∃ m, remote = Except.error m) →
      transcribe_audio hasKey remote wres = "Transcription failed: " ++ e) ∧
    (transcribe_audio hasKey remote wres = "" →
      (∃ segs, wres = Except.ok segs ∧ concatSegTexts segs = "") ∨
      (hasKey = true ∧ remote = Except.ok (OpenAIResp.withSegments []))) := by
  refine ⟨?_, ?_, ?_⟩
  · intro e he
    subst he
    exact ⟨rfl, strApp_ne_empty_left _ _ (by decide)⟩
  · intro e he hfb
    subst he
    cases hasKey with
    | false => rfl
    | true =>
      rcases hfb with hfb | ⟨m, hm⟩
      · exact absurd hfb (by simp)
      · subst hm; rfl
  · intro h
    cases hasKey with
    | false => exact Or.inl (whisper_empty_imp wres h)
    | true =>
      cases remote with
      | error m => exact Or.inl (whisper_empty_imp wres h)
      | ok resp =>
        cases resp with
        | withSegments segs =>
          cases segs with
          | nil => exact Or.inr ⟨rfl, rfl⟩
          | cons g gs => exact absurd h (openai_segments_ne_empty g gs)
        | withText t =>
          exfalso
          have h2 := ((strApp_eq_empty _ _).mp h).1
          exact absurd h2 (by decide)
        | unknown =>
          exfalso
          have h2 : ("Unable to transcribe audio with OpenAI API" : String) = "" := h
          exact absurd h2 (by decide)

/-- C2 witness: the amended theorem instantiated where both the remote and
    the local paths fail. -/
theorem claim2_witness :
    transcribe_with_whisper (Except.error "boom") = "Transcription failed: " ++ "boom" ∧
    transcribe_with_whisper (Except.error "boom") ≠ "" :=
  (claim2_transcriber_amended false (Except.error "x") (Except.error "boom")).1 "boom" rfl

/-- C2 counterexample: when no key is configured and the local Whisper
    model succeeds but returns no segments, transcribe_audio returns the
    empty string — refuting the claimed unconditional non-emptiness. -/
theorem claim2_counterexample :
    transcribe_audio false (Except.error "net down") (Except.ok []) = "" := by
  decide

/-! ## Claim C6: word-bounded chunking -/

theorem takeWhile_all {α : Type} (p : α → Bool) :
    ∀ (l : List α), (∀ c ∈ l, p c = true) → l.takeWhile p = l := by
  intro l
  induction l with
  | nil => intro _; rfl
  | cons x rest ih =>
    intro h
    rw [List.takeWhile_cons, if_pos (h x (List.mem_cons_self _ _))]
    rw [ih (fun c hc => h c (List.mem_cons_of_mem _ hc))]

theorem dropWhile_all {α : Type} (p : α → Bool) :
    ∀ (l : List α), (∀ c ∈ l, p c = true) → l.dropWhile p = [] := by
  intro l
  induction l with
  | nil => intro _; rfl
  | cons x rest ih =>
    intro h
    rw [List.dropWhile_cons, if_pos (h x (List.mem_cons_self _ _))]
    exact ih (fun c hc => h c (List.mem_cons_of_mem _ hc))

theorem takeWhile_append_stop {α : Type} (p : α → Bool) :
    ∀ (a : List α) (b : α) (r : List α), (∀ c ∈ a, p c = true) → p b = false →
    (a ++ b :: r).takeWhile p = a ∧ (a ++ b :: r).dropWhile p = b :: r := by
  intro a
  induction a with
  | nil =>
    intro b r _ hb
    constructor
    · rw [List.nil_append, List.takeWhile_cons, if_neg (by simp [hb])]
    · rw [List.nil_append, List.dropWhile_cons, if_neg (by simp [hb])]
  | cons x rest ih =>
    intro b r h hb
    have hx := h x (List.mem_cons_self _ _)
    have ht := ih b r (fun c hc => h c (List.mem_cons_of_mem _ hc)) hb
    constructor
    · rw [List.cons_append, List.takeWhile_cons, if_pos hx, ht.1]
    · rw [List.cons_append, List.dropWhile_cons, if_pos hx]
      exact ht.2

theorem pySplitWsF_nil : ∀ fuel : Nat, pySplitWsF fuel [] = [] := by
  intro fuel
  cases fuel <;> rfl

theorem pySplitWsF_tokens : ∀ (fuel : Nat) (l t : List Char),
    t ∈ pySplitWsF fuel l → t ≠ [] ∧ ∀ c ∈ t, isPySpace c = false := by
  intro fuel
  induction fuel with
  | zero => intro l t h; simp [pySplitWsF] at h
  | succ fuel ih =>
    intro l t h
    cases l with
    | nil => simp [pySplitWsF] at h
    | cons c rest =>
      by_cases hc : isPySpace c = true
      · rw [show pySplitWsF (fuel + 1) (c :: rest) = pySplitWsF fuel rest from by
          simp [pySplitWsF, hc]] at h
        exact ih rest t h
      · rw [show pySplitWsF (fuel + 1) (c :: rest) =
            (c :: rest.takeWhile (fun x => !isPySpace x)) ::
              pySplitWsF fuel (rest.dropWhile (fun x => !isPySpace x)) from by
          simp [pySplitWsF, hc]] at h
        rcases List.mem_cons.mp h with rfl | h2
        · refine ⟨by simp, ?_⟩
          intro x hx
          rcases List.mem_cons.mp hx with rfl | h3
          · exact eq_false_of_ne_true hc
          · have := List.mem_takeWhile_imp h3
            simpa using this
        · exact ih _ t h2

theorem pySplitWsF_join : ∀ (toks : List (List Char)) (fuel : Nat),
    (∀ t ∈ toks, t ≠ [] ∧ ∀ c ∈ t, isPySpace c = false) →
    (joinSp toks).length ≤ fuel → pySplitWsF fuel (joinSp toks) = toks := by
  intro toks
  induction toks with
  | nil => intro fuel _ _; rw [show joinSp [] = [] from rfl, pySplitWsF_nil]
  | cons t toks2 ih =>
    intro fuel hclean hlen
    have hthead := hclean t (List.mem_cons_self _ _)
    rcases ht : t with _ | ⟨c, cs⟩
    · exact absurd ht hthead.1
    subst ht
    have hcsclean : ∀ x ∈ cs, (fun x => !isPySpace x) x = true := by
      intro x hx
      simp [hthead.2 x (List.mem_cons_of_mem _ hx)]
    cases toks2 with
    | nil =>
      rw [show joinSp [c :: cs] = c :: cs from rfl] at hlen ⊢
      cases fuel with
      | zero => simp at hlen
      | succ fuel =>
        have hc : isPySpace c = false := hthead.2 c (List.mem_cons_self _ _)
        rw [show pySplitWsF (fuel + 1) (c :: cs) =
            (c :: cs.takeWhile (fun x => !isPySpace x)) ::
              pySplitWsF fuel (cs.dropWhile (fun x => !isPySpace x)) from by
          simp [pySplitWsF, hc]]
        rw [takeWhile_all _ cs hcsclean, dropWhile_all _ cs hcsclean, pySplitWsF_nil]
    | cons u toks3 =>
      have hjoin : joinSp ((c :: cs) :: u :: toks3) = (c :: cs) ++ ' ' :: joinSp (u :: toks3) :=
        rfl
      rw [hjoin] at hlen ⊢
      cases fuel with
      | zero => simp at hlen
      | succ fuel =>
        have hc : isPySpace c = false := hthead.2 c (List.mem_cons_self _ _)
        have hstop := takeWhile_append_stop (fun x => !isPySpace x) cs ' '
          (joinSp (u :: toks3)) hcsclean (by decide)
        rw [List.cons_append]
        rw [show pySplitWsF (fuel + 1) (c :: (cs ++ ' ' :: joinSp (u :: toks3))) =
            (c :: (cs ++ ' ' :: joinSp (u :: toks3)).takeWhile (fun x => !isPySpace x)) ::
              pySplitWsF fuel ((cs ++ ' ' :: joinSp (u :: toks3)).dropWhile
                (fun x => !isPySpace x)) from by
          simp [pySplitWsF, hc]]
        rw [hstop.1, hstop.2]
        cases fuel with
        | zero =>
          exfalso
          simp only [List.length_cons, List.length_append, List.length_cons] at hlen
          omega
        | succ fuel =>
          rw [show pySplitWsF (fuel + 1) (' ' :: joinSp (u :: toks3)) =
              pySplitWsF fuel (joinSp (u :: toks3)) from by
            have hsp : isPySpace ' ' = true := rfl
            simp [pySplitWsF, hsp]]
          rw [ih fuel (fun x hx => hclean x (List.mem_cons_of_mem _ hx)) (by
            simp only [List.length_cons, List.length_append, List.length_cons] at hlen
            omega)]

theorem chunkStepL_words (M : Nat) : ∀ (ws chunks current : List (List Char)) (curlen : Nat),
    (∀ t ∈ ws, t ≠ [] ∧ ∀ c ∈ t, isPySpace c = false) →
    (∀ t ∈ current, t ≠ [] ∧ ∀ c ∈ t, isPySpace c = false) →
    ((chunkStepL M ws chunks current curlen).map pySplitWs).flatten =
      (chunks.map pySplitWs).flatten ++ current ++ ws := by
  intro ws
  induction ws with
  | nil =>
    intro chunks current curlen _ hcur
    simp only [chunkStepL]
    split
    · rename_i hemp
      cases current with
      | nil => simp
      | cons t r => simp at hemp
    · rw [List.map_append, List.flatten_append]
      simp only [List.map_cons, List.map_nil, List.flatten_cons, List.flatten_nil]
      rw [show pySplitWs (joinSp current) = current from
        pySplitWsF_join current (joinSp current).length hcur le_rfl]
      simp
  | cons w rest ih =>
    intro chunks current curlen hws hcur
    have hwhead := hws w (List.mem_cons_self _ _)
    have hwrest : ∀ t ∈ rest, t ≠ [] ∧ ∀ c ∈ t, isPySpace c = false :=
      fun t ht => hws t (List.mem_cons_of_mem _ ht)
    simp only [chunkStepL]
    split
    · rw [ih (chunks ++ [joinSp current]) [w] w.length hwrest (by
        intro t ht
        rcases List.mem_cons.mp ht with rfl | h
        · exact hwhead
        · simp at h)]
      rw [List.map_append, List.flatten_append]
      simp only [List.map_cons, List.map_nil, List.flatten_cons, List.flatten_nil]
      rw [show pySplitWs (joinSp current) = current from
        pySplitWsF_join current (joinSp current).length hcur le_rfl]
      simp [List.append_assoc]
    · rw [ih chunks (current ++ [w]) (curlen + w.length + 1) hwrest (by
        intro t ht
        rcases List.mem_append.mp ht with h | h
        · exact hcur t h
        · rcases List.mem_singleton.mp h with rfl
          exact hwhead)]
      simp [List.append_assoc]

theorem joinSp_snoc : ∀ (xs : List (List Char)) (w : List Char),
    joinSp (xs ++ [w]) = if xs.isEmpty then w else joinSp xs ++ ' ' :: w := by
  intro xs
  induction xs with
  | nil => intro w; rfl
  | cons t rest ih =>
    intro w
    cases rest with
    | nil => rfl
    | cons u rest2 =>
      rw [show ((t :: u :: rest2) ++ [w]) = t :: ((u :: rest2) ++ [w]) from rfl]
      rw [show joinSp (t :: ((u :: rest2) ++ [w])) =
        t ++ ' ' :: joinSp ((u :: rest2) ++ [w]) from rfl]
      rw [ih w]
      rw [if_neg (by simp), if_neg (by simp)]
      rw [show joinSp (t :: u :: rest2) = t ++ ' ' :: joinSp (u :: rest2) from rfl]
      simp [List.append_assoc]

theorem chunkStepL_le (M : Nat) : ∀ (ws chunks current : List (List Char)) (curlen : Nat),
    (∀ w ∈ ws, w.length < M) →
    (joinSp current).length ≤ curlen → curlen ≤ M →
    (∀ c ∈ chunks, c.length ≤ M) →
    ∀ c ∈ chunkStepL M ws chunks current curlen, c.length ≤ M := by
  intro ws
  induction ws with
  | nil =>
    intro chunks current curlen _ hjoin hcl hch c hc
    simp only [chunkStepL] at hc
    split at hc
    · exact hch c hc
    · rcases List.mem_append.mp hc with h | h
      · exact hch c h
      · rcases List.mem_singleton.mp h with rfl
        exact le_trans hjoin hcl
  | cons w rest ih =>
    intro chunks current curlen hws hjoin hcl hch c hc
    have hwhead := hws w (List.mem_cons_self _ _)
    have hwrest : ∀ x ∈ rest, x.length < M := fun x hx => hws x (List.mem_cons_of_mem _ hx)
    simp only [chunkStepL] at hc
    split at hc
    · refine ih (chunks ++ [joinSp current]) [w] w.length hwrest le_rfl
        (le_of_lt hwhead) ?_ c hc
      intro x hx
      rcases List.mem_append.mp hx with h | h
      · exact hch x h
      · rcases List.mem_singleton.mp h with rfl
        exact le_trans hjoin hcl
    · rename_i hguard
      refine ih chunks (current ++ [w]) (curlen + w.length + 1) hwrest ?_ (by omega) hch c hc
      rw [joinSp_snoc]
      split
      · omega
      · rw [List.length_append, List.length_cons]
        omega

/-- C6 amended: chunk_text never splits inside a word — the in-order word
    tokens of the produced chunks are exactly the word tokens of the input
    — and, provided every word of the input is shorter than the 1000
    character bound, every chunk has length at most 1000 (not strictly
    under it: a chunk can reach exactly 1000 characters, and a single word
    of length at least 1000 becomes an over-long chunk preceded by an empty
    flushed chunk, see the counterexample). -/
theorem claim6_word_chunking_amended (t : String) :
    ((chunk_text t 1000).map (fun c => pySplitWs c.data)).flatten = pySplitWs t.data ∧
    ((∀ w ∈ pySplitWs t.data, w.length < 1000) →
      ∀ c ∈ chunk_text t 1000, c.length ≤ 1000) := by
  constructor
  · unfold chunk_text
    rw [List.map_map]
    have hid : ((fun c : String => pySplitWs c.data) ∘ String.mk) = pySplitWs := rfl
    rw [hid]
    have h1 := chunkStepL_words 1000 (pySplitWs t.data) [] [] 0
      (fun x hx => pySplitWsF_tokens _ _ x hx) (by intro x hx; simp at hx)
    simpa using h1
  · intro hw c hc
    unfold chunk_text at hc
    rcases List.mem_map.mp hc with ⟨l, hl, rfl⟩
    rw [String.length_mk]
    exact chunkStepL_le 1000 (pySplitWs t.data) [] [] 0 hw le_rfl (by omega)
      (by intro x hx; simp at hx) l hl

/-- C6 witness: the amended theorem applied to a concrete three-word input,
    specialised to its single chunk. -/
theorem claim6_witness : ("alpha beta gamma" : String).length ≤ 1000 :=
  (claim6_word_chunking_amended "alpha beta gamma").2 (by decide)
    "alpha beta gamma" (by decide)

/-- C6 counterexample: a single 1000-character word makes chunk_text emit
    an empty chunk followed by a chunk of length exactly 1000, which is not
    under the 1000-character bound — the claim as stated fails. -/
theorem claim6_counterexample :
    chunk_text (String.mk (List.replicate 1000 'a')) 1000 =
      ["", String.mk (List.replicate 1000 'a')] ∧
    ¬ ((String.mk (List.replicate 1000 'a')).length < 1000) := by
  decide

/-! ## Claim C1: Title Suggester shape -/

theorem padTitles_length (l : List String) : 3 ≤ (padTitles l).length := by
  simp only [padTitles]
  repeat' split
  all_goals simp_all [List.length_append]

theorem padTitles_mem (l : List String) (t : String) (h : t ∈ padTitles l) :
    t ∈ l ∨ ∃ n : Nat, t = "Meeting Summary " ++ toString n := by
  have key : ∀ (m : List String) (n : Nat),
      t ∈ m ++ ["Meeting Summary " ++ toString n] →
      t ∈ m ∨ ∃ k : Nat, t = "Meeting Summary " ++ toString k := by
    intro m n hm
    rcases List.mem_append.mp hm with h1 | h1
    · exact Or.inl h1
    · exact Or.inr ⟨n, List.mem_singleton.mp h1⟩
  simp only [padTitles] at h
  split at h
  · split at h
    · split at h
      · rcases key _ _ h with h2 | h2
        · rcases key _ _ h2 with h3 | h3
          · rcases key _ _ h3 with h4 | h4
            · exact Or.inl h4
            · exact Or.inr h4
          · exact Or.inr h3
        · exact Or.inr h2
      · rcases key _ _ h with h2 | h2
        · rcases key _ _ h2 with h3 | h3
          · exact Or.inl h3
          · exact Or.inr h3
        · exact Or.inr h2
    · rcases key _ _ h with h2 | h2
      · exact Or.inl h2
      · exact Or.inr h2
  · exact Or.inl h

theorem parse_titles_ne_empty (content : String) (t : String)
    (h : t ∈ parse_titles content) : t ≠ "" := by
  unfold parse_titles at h
  rcases List.mem_filterMap.mp h with ⟨line, _, hline⟩
  by_cases hcl : cleanTitleLine line ≠ "" ∧ (cleanTitleLine line).length < 60
  · rw [if_pos hcl] at hline
    injection hline with h2
    rw [← h2]
    exact hcl.1
  · rw [if_neg hcl] at hline
    simp at hline

theorem openai_titles_props (content : String) :
    (generate_titles_with_openai content).length = 3 ∧
    ∀ t ∈ generate_titles_with_openai content, t ≠ "" := by
  constructor
  · unfold generate_titles_with_openai
    rw [List.length_take]
    exact min_eq_left (padTitles_length (parse_titles content))
  · intro t ht
    unfold generate_titles_with_openai at ht
    have h1 : t ∈ padTitles (parse_titles content) := (List.take_sublist _ _).subset ht
    rcases padTitles_mem _ _ h1 with h2 | ⟨n, rfl⟩
    · exact parse_titles_ne_empty content t h2
    · exact strApp_ne_empty_left _ _ (by decide)

theorem fmtEq1 (x : String) :
    String.mk (substTopics x "" "\x7btopic1\x7d Discussion Summary".data) =
      x ++ " Discussion Summary" := rfl

theorem fmtEq2 (x y : String) :
    String.mk (substTopics x y "\x7btopic1\x7d and \x7btopic2\x7d Planning".data) =
      x ++ (" and " ++ (y ++ " Planning")) := rfl

theorem fmtEq3 (x : String) :
    String.mk (substTopics x "" "Meeting Notes: \x7btopic1\x7d Review".data) =
      "Meeting Notes: " ++ (x ++ " Review") := rfl

theorem fmtEq4 (x : String) :
    String.mk (substTopics x "" "\x7btopic1\x7d Strategy Session".data) =
      x ++ " Strategy Session" := rfl

theorem fmtEq5 (x : String) :
    String.mk (substTopics x "" "Quarterly \x7btopic1\x7d Update".data) =
      "Quarterly " ++ (x ++ " Update") := rfl

theorem fmtEq6 (x : String) :
    String.mk (substTopics x "" "\x7btopic1\x7d: Analysis & Next Steps".data) =
      x ++ ": Analysis & Next Steps" := rfl

theorem fmtEq7 (x : String) :
    String.mk (substTopics x "" "\x7btopic1\x7d Implementation Plan".data) =
      x ++ " Implementation Plan" := rfl

theorem fmtEq8 (x y : String) :
    String.mk (substTopics x y "\x7btopic1\x7d and \x7btopic2\x7d Collaboration".data) =
      x ++ (" and " ++ (y ++ " Collaboration")) := rfl

theorem fmtOne_templates (tpl : String) (htpl : tpl ∈ templates) (topics : List String)
    (a b : String) (h0 : topics.get? 0 = some a) (h1 : topics.get? 1 = some b) :
    ∃ s, fmtOne topics tpl = some s ∧ s ≠ "" := by
  have hcases : tpl = "\x7btopic1\x7d Discussion Summary" ∨
      tpl = "\x7btopic1\x7d and \x7btopic2\x7d Planning" ∨
      tpl = "Meeting Notes: \x7btopic1\x7d Review" ∨
      tpl = "\x7btopic1\x7d Strategy Session" ∨
      tpl = "Quarterly \x7btopic1\x7d Update" ∨
      tpl = "\x7btopic1\x7d: Analysis & Next Steps" ∨
      tpl = "\x7btopic1\x7d Implementation Plan" ∨
      tpl = "\x7btopic1\x7d and \x7btopic2\x7d Collaboration" := by
    simpa [templates] using htpl
  rcases hcases with rfl | rfl | rfl | rfl | rfl | rfl | rfl | rfl
  · refine ⟨pyCapitalize a ++ " Discussion Summary", ?_,
      strApp_ne_empty_right _ _ (by decide)⟩
    unfold fmtOne
    rw [if_neg (by decide), h0]
    show pyFormatOne _ (pyCapitalize a) = _
    unfold pyFormatOne
    rw [if_neg (by decide)]
    exact congrArg some (fmtEq1 (pyCapitalize a))
  · refine ⟨pyCapitalize a ++ (" and " ++ (pyCapitalize b ++ " Planning")), ?_,
      strApp_ne_empty_right _ _ (strApp_ne_empty_left _ _ (by decide))⟩
    unfold fmtOne
    rw [if_pos (by decide), h0, h1]
    show some (pyFormatBoth _ (pyCapitalize a) (pyCapitalize b)) = _
    exact congrArg some (fmtEq2 (pyCapitalize a) (pyCapitalize b))
  · refine ⟨"Meeting Notes: " ++ (pyCapitalize a ++ " Review"), ?_,
      strApp_ne_empty_left _ _ (by decide)⟩
    unfold fmtOne
    rw [if_neg (by decide), h0]
    show pyFormatOne _ (pyCapitalize a) = _
    unfold pyFormatOne
    rw [if_neg (by decide)]
    exact congrArg some (fmtEq3 (pyCapitalize a))
  · refine ⟨pyCapitalize a ++ " Strategy Session", ?_,
      strApp_ne_empty_right _ _ (by decide)⟩
    unfold fmtOne
    rw [if_neg (by decide), h0]
    show pyFormatOne _ (pyCapitalize a) = _
    unfold pyFormatOne
    rw [if_neg (by decide)]
    exact congrArg some (fmtEq4 (pyCapitalize a))
  · refine ⟨"Quarterly " ++ (pyCapitalize a ++ " Update"), ?_,
      strApp_ne_empty_left _ _ (by decide)⟩
    unfold fmtOne
    rw [if_neg (by decide), h0]
    show pyFormatOne _ (pyCapitalize a) = _
    unfold pyFormatOne
    rw [if_neg (by decide)]
    exact congrArg some (fmtEq5 (pyCapitalize a))
  · refine ⟨pyCapitalize a ++ ": Analysis & Next Steps", ?_,
      strApp_ne_empty_right _ _ (by decide)⟩
    unfold fmtOne
    rw [if_neg (by decide), h0]
    show pyFormatOne _ (pyCapitalize a) = _
    unfold pyFormatOne
    rw [if_neg (by decide)]
    exact congrArg some (fmtEq6 (pyCapitalize a))
  · refine ⟨pyCapitalize a ++ " Implementation Plan", ?_,
      strApp_ne_empty_right _ _ (by decide)⟩
    unfold fmtOne
    rw [if_neg (by decide), h0]
    show pyFormatOne _ (pyCapitalize a) = _
    unfold pyFormatOne
    rw [if_neg (by decide)]
    exact congrArg some (fmtEq7 (pyCapitalize a))
  · refine ⟨pyCapitalize a ++ (" and " ++ (pyCapitalize b ++ " Collaboration")), ?_,
      strApp_ne_empty_right _ _ (strApp_ne_empty_left _ _ (by decide))⟩
    unfold fmtOne
    rw [if_pos (by decide), h0, h1]
    show some (pyFormatBoth _ (pyCapitalize a) (pyCapitalize b)) = _
    exact congrArg some (fmtEq8 (pyCapitalize a) (pyCapitalize b))

theorem fmtTemplates_all (topics : List String) :
    ∀ (l : List String), (∀ tpl ∈ l, ∃ s, fmtOne topics tpl = some s ∧ s ≠ "") →
    ∃ ts, fmtTemplates topics l = some ts ∧ ts.length = l.length ∧ ∀ s ∈ ts, s ≠ "" := by
  intro l
  induction l with
  | nil => intro _; exact ⟨[], rfl, rfl, by intro s hs; simp at hs⟩
  | cons tpl rest ih =>
    intro h
    rcases h tpl (List.mem_cons_self _ _) with ⟨s, hs, hne⟩
    rcases ih (fun x hx => h x (List.mem_cons_of_mem _ hx)) with ⟨ts, hts, hlen, hall⟩
    refine ⟨s :: ts, ?_, by simp [hlen], ?_⟩
    · simp only [fmtTemplates, hs, hts]
    · intro x hx
      rcases List.mem_cons.mp hx with rfl | h2
      · exact hne
      · exact hall x h2

/-- C1: generate_titles always yields exactly 3 non-empty titles: on the
    remote path, for every response content, the parsed-padded-truncated
    list has exactly 3 non-empty entries; on the rule-based path, for every
    summary string and every shuffle outcome of the fixed template pool,
    the function returns (never raises, i.e. is `some`) a list of exactly 3
    non-empty titles. -/
theorem claim1_title_suggester :
    (∀ content : String, (generate_titles_with_openai content).length = 3 ∧
      ∀ t ∈ generate_titles_with_openai content, t ≠ "") ∧
    (∀ (shuffled : List String) (summary : String), shuffled.Perm templates →
      ∃ ts, generate_titles_rule_based shuffled summary = some ts ∧
        ts.length = 3 ∧ ∀ t ∈ ts, t ≠ "") := by
  refine ⟨openai_titles_props, ?_⟩
  intro shuffled summary hperm
  unfold generate_titles_rule_based
  have hkey : ∀ (tps : List String), 2 ≤ tps.length →
      ∃ ts, fmtTemplates tps (shuffled.take 3) = some ts ∧
        ts.length = 3 ∧ ∀ t ∈ ts, t ≠ "" := by
    intro tps hlen2
    obtain ⟨a, ha⟩ : ∃ a, tps.get? 0 = some a := by
      cases tps with
      | nil => simp at hlen2
      | cons a tl => exact ⟨a, rfl⟩
    obtain ⟨b, hb⟩ : ∃ b, tps.get? 1 = some b := by
      cases tps with
      | nil => simp at hlen2
      | cons a tl =>
        cases tl with
        | nil => simp at hlen2
        | cons b tl2 => exact ⟨b, rfl⟩
    have hall : ∀ tpl ∈ shuffled.take 3, ∃ s, fmtOne tps tpl = some s ∧ s ≠ "" := by
      intro tpl htpl
      have hmem : tpl ∈ templates :=
        (hperm.mem_iff).mp ((List.take_sublist _ _).subset htpl)
      exact fmtOne_templates tpl hmem tps a b ha hb
    rcases fmtTemplates_all tps _ hall with ⟨ts, h1, h2, h3⟩
    refine ⟨ts, h1, ?_, h3⟩
    rw [h2, List.length_take, hperm.length_eq]
    decide
  apply hkey
  split
  · rw [List.length_append]
    simp
  · rename_i hge
    omega

/-- C1 witness: the theorem instantiated at the empty response content and
    at the identity shuffle with the empty summary. -/
theorem claim1_witness :
    (generate_titles_with_openai "").length = 3 ∧
    generate_titles_rule_based templates "" ≠ none := by
  have h1 := (claim1_title_suggester.1 "").1
  have h2 := claim1_title_suggester.2 templates "" (List.Perm.refl templates)
  rcases h2 with ⟨ts, hts, _, _⟩
  exact ⟨h1, by rw [hts]; simp⟩
